import Mathlib

/-!
Shallow embedding of the technical-indicator engine of the repository
(`src/scheduler.py`) together with proofs about the claims of the
specification.

The engine works on pandas `Series` of IEEE-754 doubles.  We model a pandas
float value exactly as a rational number extended with the three special
values `+inf`, `-inf` and `NaN` (`GFloat ℚ` below); the arithmetic on these
values follows the IEEE-754 rules that numpy implements on the cases the
engine can reach.  A raised Python exception (in this engine only
`IndexError` coming from `.iloc[-1]` on an empty frame) is modelled by
`Option.none`; a pandas `NaN` result (what the specification calls a *null*
indicator value) is the ordinary value `GFloat.nan`.  The two are distinct,
exactly as they are in the running program.

Rolling windows, `diff`, `shift`, `cumsum`, `ewm(span, min_periods=1)`
(pandas default `adjust=True`) and `pct_change` are modelled on `List`s,
following the pandas semantics: a rolling aggregate needs a full window of
`w` non-NaN observations (the default `min_periods = window`), `cumsum`
skips NaN entries but leaves them in place, and `ewm` ages its weights with
factor `1 - α` per step.
-/

/-- IEEE-style float over an ordered field: a finite value, the two
infinities, or NaN. -/
inductive GFloat (α : Type) where
  | num (x : α)
  | inf
  | ninf
  | nan
deriving DecidableEq

/-- Finite floats over `ℚ`: the values the engine's pure-rational pipelines
produce. -/
abbrev PFloat := GFloat ℚ

/-- Floats over `ℝ`, needed only for `rolling(...).std()` whose value is a
real square root. -/
abbrev EFloat := GFloat ℝ

namespace GFloat

variable {α : Type} [LinearOrderedField α]

/-- IEEE addition on the reachable cases. -/
def add : GFloat α → GFloat α → GFloat α
  | nan, _ => nan
  | _, nan => nan
  | inf, ninf => nan
  | ninf, inf => nan
  | inf, _ => inf
  | _, inf => inf
  | ninf, _ => ninf
  | _, ninf => ninf
  | num a, num b => num (a + b)

/-- IEEE negation. -/
def neg : GFloat α → GFloat α
  | num a => num (-a)
  | inf => ninf
  | ninf => inf
  | nan => nan

/-- IEEE subtraction, `a - b = a + (-b)`. -/
def sub (a b : GFloat α) : GFloat α := add a (neg b)

/-- IEEE multiplication; `±inf * 0 = NaN`. -/
def mul : GFloat α → GFloat α → GFloat α
  | nan, _ => nan
  | _, nan => nan
  | num a, num b => num (a * b)
  | inf, num b => if 0 < b then inf else if b < 0 then ninf else nan
  | num a, inf => if 0 < a then inf else if a < 0 then ninf else nan
  | ninf, num b => if 0 < b then ninf else if b < 0 then inf else nan
  | num a, ninf => if 0 < a then ninf else if a < 0 then inf else nan
  | inf, inf => inf
  | inf, ninf => ninf
  | ninf, inf => ninf
  | ninf, ninf => inf

/-- IEEE division; `x/0` is `±inf` for `x ≠ 0` and NaN for `0/0`,
`x/±inf = 0`, `±inf/±inf = NaN`. -/
def div : GFloat α → GFloat α → GFloat α
  | nan, _ => nan
  | _, nan => nan
  | num a, num b =>
      if b = 0 then (if 0 < a then inf else if a < 0 then ninf else nan)
      else num (a / b)
  | num _, inf => num 0
  | num _, ninf => num 0
  | inf, num b => if 0 ≤ b then inf else ninf
  | ninf, num b => if 0 ≤ b then ninf else inf
  | inf, inf => nan
  | inf, ninf => nan
  | ninf, inf => nan
  | ninf, ninf => nan

/-- Absolute value. -/
def absF : GFloat α → GFloat α
  | num a => num |a|
  | inf => inf
  | ninf => inf
  | nan => nan

/-- The `np.sign` function: `-1`, `0` or `+1` on finite values,
`±1` on the infinities, NaN on NaN. -/
def signF : GFloat α → GFloat α
  | num a => num (if 0 < a then 1 else if a < 0 then -1 else 0)
  | inf => num 1
  | ninf => num (-1)
  | nan => nan

/-- Pointwise model of `delta.where(delta > 0, 0)`: keep strictly positive
entries, replace everything else (NaN included, since `NaN > 0` is false)
with `0`. -/
def posPart : GFloat α → GFloat α
  | num a => if 0 < a then num a else num 0
  | inf => inf
  | _ => num 0

/-- Pointwise model of `delta.where(delta < 0, 0)`. -/
def negPart : GFloat α → GFloat α
  | num a => if a < 0 then num a else num 0
  | ninf => ninf
  | _ => num 0

/-- Row maximum of pandas `DataFrame.max(axis=1)` (default `skipna=True`):
NaN entries are ignored, an all-NaN row gives NaN. -/
def pmaxSkip : GFloat α → GFloat α → GFloat α
  | nan, b => b
  | a, nan => a
  | inf, _ => inf
  | _, inf => inf
  | ninf, b => b
  | a, ninf => a
  | num a, num b => num (max a b)

/-- Skip-NaN minimum, dual of `pmaxSkip`. -/
def pminSkip : GFloat α → GFloat α → GFloat α
  | nan, b => b
  | a, nan => a
  | ninf, _ => ninf
  | _, ninf => ninf
  | inf, b => b
  | a, inf => a
  | num a, num b => num (min a b)

end GFloat

open GFloat

/-- The Python `.iloc[-1]`: the last element of a series, or an
`IndexError` (modelled `none`) when the series is empty. -/
def ilocLast {α : Type} (xs : List α) : Option α := xs.getLast?

/-- Sum of a series of floats; NaN and infinities propagate through
`GFloat.add` exactly as in numpy. -/
def sumF (ys : List PFloat) : PFloat := ys.foldl add (num 0)

/-- The window `rolling(window=w)` inspects at position `i`: the trailing
`w` entries ending at `i` (fewer at the start of the series). -/
def windowAt (w i : ℕ) (xs : List PFloat) : List PFloat :=
  (xs.take (i + 1)).drop (i + 1 - w)

/-- Generic pandas rolling aggregate with `min_periods = window`: positions
with fewer than `w` observations give NaN, full windows are aggregated
with `f`. -/
def rollingApply (w : ℕ) (f : List PFloat → PFloat) (xs : List PFloat) :
    List PFloat :=
  (List.range xs.length).map fun i =>
    if i + 1 < w then nan else f (windowAt w i xs)

/-- Model of `rolling(w).mean()`: NaN inside a full window makes the sum
(and hence the mean) NaN, matching the `min_periods = w` default. -/
def rollingMean (w : ℕ) (xs : List PFloat) : List PFloat :=
  rollingApply w (fun ys => div (sumF ys) (num (w : ℚ))) xs

/-- Model of `rolling(w).sum()`. -/
def rollingSum (w : ℕ) (xs : List PFloat) : List PFloat :=
  rollingApply w sumF xs

/-- Model of `rolling(w).min()`: NaN when the full window contains a NaN. -/
def rollingMin (w : ℕ) (xs : List PFloat) : List PFloat :=
  rollingApply w (fun ys => if ys.contains nan then nan else ys.foldl pminSkip inf) xs

/-- Model of `rolling(w).max()`. -/
def rollingMax (w : ℕ) (xs : List PFloat) : List PFloat :=
  rollingApply w (fun ys => if ys.contains nan then nan else ys.foldl pmaxSkip ninf) xs

/-- Model of `Series.diff()`: NaN at position 0, forward differences
afterwards. -/
def diffL : List PFloat → List PFloat
  | [] => []
  | x :: rest => nan :: List.zipWith sub rest (x :: rest)

/-- Model of `Series.shift()`: NaN at position 0, everything else moved one
place down. -/
def shiftL (xs : List PFloat) : List PFloat := (nan :: xs).take xs.length

/-- Model of `Series.cumsum()` (default `skipna=True`): NaN entries stay
NaN but do not stop the running total. -/
def cumsumGo (acc : PFloat) : List PFloat → List PFloat
  | [] => []
  | x :: rest =>
      if x = nan then nan :: cumsumGo acc rest
      else add acc x :: cumsumGo (add acc x) rest

/-- Cumulative sum of a series, starting from `0`. -/
def cumsumF (xs : List PFloat) : List PFloat := cumsumGo (num 0) xs

/-- Model of `Series.pct_change(periods=p)`: `x[i]/x[i-p] - 1`, NaN for the
first `p` positions. -/
def pctChange (p : ℕ) (xs : List PFloat) : List PFloat :=
  (List.range xs.length).map fun i =>
    if i < p then nan
    else sub (div (xs.getD i nan) (xs.getD (i - p) nan)) (num 1)

/-- One step of the `ewm(span, min_periods=1, adjust=True).mean()`
recurrence: `n` and `d` are the running weighted numerator and the running
weight mass, both aged by `b = 1 - α` per observation; NaN observations
contribute no weight (pandas default `ignore_na=False`). -/
def ewmGo (b : ℚ) (n : PFloat) (d : ℚ) : List PFloat → List PFloat
  | [] => []
  | x :: rest =>
      if x = nan then
        (if d * b = 0 then nan else div (mul n (num b)) (num (d * b))) ::
          ewmGo b (mul n (num b)) (d * b) rest
      else
        div (add (mul n (num b)) x) (num (d * b + 1)) ::
          ewmGo b (add (mul n (num b)) x) (d * b + 1) rest

/-- Model of `Series.ewm(span=s, min_periods=1).mean()` with the pandas
default `adjust=True`; the smoothing factor is `α = 2/(s+1)`. -/
def ewmAdj (span : ℕ) (xs : List PFloat) : List PFloat :=
  ewmGo (1 - 2 / ((span : ℚ) + 1)) (num 0) 0 xs

/-- One bar of the prepared series handed to the engine: the columns of the
normalized frame that the indicators read. -/
structure Bar where
  date : ℕ
  open_price : ℚ
  high_price : ℚ
  low_price : ℚ
  close_price : ℚ
  volume : ℚ
deriving DecidableEq

/-- A prepared bar series: the ordered rows of the frame. -/
abbrev BarSeries := List Bar

/-- The `Date` column. -/
def dateCol (data : BarSeries) : List ℕ := data.map Bar.date

/-- The `close_price` column, as floats. -/
def closeCol (data : BarSeries) : List PFloat :=
  data.map fun b => num b.close_price

/-- The `high_price` column. -/
def highCol (data : BarSeries) : List PFloat :=
  data.map fun b => num b.high_price

/-- The `low_price` column. -/
def lowCol (data : BarSeries) : List PFloat :=
  data.map fun b => num b.low_price

/-- The `volume` column. -/
def volCol (data : BarSeries) : List PFloat :=
  data.map fun b => num b.volume

/-! ## The indicator functions of `src/scheduler.py`

Each definition mirrors the Python function of the same name line by line.
The result is `none` exactly when the Python function raises (an
`.iloc[-1]` on an empty series). -/

/-- `calculate_sma(data, period=14)`:
`data['close_price'].rolling(window=period).mean().iloc[-1]`. -/
def calculate_sma (data : BarSeries) (period : ℕ := 14) : Option PFloat :=
  ilocLast (rollingMean period (closeCol data))

/-- `calculate_ema(data, period=14)`:
`data['close_price'].ewm(span=period, min_periods=1).mean().iloc[-1]`. -/
def calculate_ema (data : BarSeries) (period : ℕ := 14) : Option PFloat :=
  ilocLast (ewmAdj period (closeCol data))

/-- The `delta = data['close_price'].diff()` series of `calculate_rsi`. -/
def rsiDelta (data : BarSeries) : List PFloat := diffL (closeCol data)

/-- The `gain = (delta.where(delta > 0, 0)).rolling(window=period).mean()`
series of `calculate_rsi`. -/
def rsiGainAvg (data : BarSeries) (period : ℕ) : List PFloat :=
  rollingMean period ((rsiDelta data).map posPart)

/-- The `loss = (-delta.where(delta < 0, 0)).rolling(window=period).mean()`
series of `calculate_rsi`. -/
def rsiLossAvg (data : BarSeries) (period : ℕ) : List PFloat :=
  rollingMean period ((rsiDelta data).map fun x => neg (negPart x))

/-- `calculate_rsi(data, period=14)`: `rs = gain / loss`,
`rsi = 100 - (100 / (1 + rs))`, last element. -/
def calculate_rsi (data : BarSeries) (period : ℕ := 14) : Option PFloat :=
  ilocLast
    ((List.zipWith div (rsiGainAvg data period) (rsiLossAvg data period)).map
      fun rs => sub (num 100) (div (num 100) (add (num 1) rs)))

/-- `calculate_macd(data, fast_period=12, slow_period=26, signal_period=9)`:
the pair `(macd.iloc[-1], macd_signal.iloc[-1])`. -/
def calculate_macd (data : BarSeries) (fast_period : ℕ := 12)
    (slow_period : ℕ := 26) (signal_period : ℕ := 9) :
    Option (PFloat × PFloat) :=
  let macd := List.zipWith sub (ewmAdj fast_period (closeCol data))
    (ewmAdj slow_period (closeCol data))
  do
    let m ← ilocLast macd
    let s ← ilocLast (ewmAdj signal_period macd)
    pure (m, s)

/-- `calculate_stochastic(data, period=14)`:
`(close - lowest_low) / (highest_high - lowest_low) * 100`, last element. -/
def calculate_stochastic (data : BarSeries) (period : ℕ := 14) :
    Option PFloat :=
  let lowest_low := rollingMin period (lowCol data)
  let highest_high := rollingMax period (highCol data)
  ilocLast
    ((List.zipWith div (List.zipWith sub (closeCol data) lowest_low)
        (List.zipWith sub highest_high lowest_low)).map
      fun x => mul x (num 100))

/-- Extract the underlying rationals of a window if every entry is finite;
any NaN or infinity makes the aggregate NaN. -/
def allQ : List PFloat → Option (List ℚ)
  | [] => some []
  | num q :: rest => (allQ rest).map fun qs => q :: qs
  | _ => none

/-- Arithmetic mean of a list of rationals. -/
def meanQ (qs : List ℚ) : ℚ := qs.sum / qs.length

/-- Sample variance (`ddof=1`, the pandas `rolling(...).std()` default) of
a list of rationals. -/
def varQ (qs : List ℚ) : ℚ :=
  ((qs.map fun x => (x - meanQ qs) ^ 2).sum) / ((qs.length : ℚ) - 1)

/-- Aggregate of one `rolling(w).std()` window: the real square root of the
sample variance, NaN when the window holds a NaN or fewer than two
observations. -/
noncomputable def stdWin (ys : List PFloat) : EFloat :=
  match allQ ys with
  | none => GFloat.nan
  | some qs =>
      if qs.length ≤ 1 then GFloat.nan
      else GFloat.num (Real.sqrt ((varQ qs : ℚ) : ℝ))

/-- Model of `rolling(w).std()` (pandas default `ddof=1`). -/
noncomputable def rollingStdE (w : ℕ) (xs : List PFloat) : List EFloat :=
  (List.range xs.length).map fun i =>
    if i + 1 < w then GFloat.nan else stdWin (windowAt w i xs)

/-- Embeds a finite rational float into the real-valued floats. -/
def toE : PFloat → EFloat
  | num q => num (q : ℝ)
  | inf => inf
  | ninf => ninf
  | nan => nan

/-- `calculate_bollinger_bands(data, window=20, num_std_dev=2)`: the pair
`(rolling_mean.iloc[-1] + rolling_std.iloc[-1] * k,
  rolling_mean.iloc[-1] - rolling_std.iloc[-1] * k)`. -/
noncomputable def calculate_bollinger_bands (data : BarSeries)
    (window : ℕ := 20) (num_std_dev : ℕ := 2) : Option (EFloat × EFloat) := do
  let m ← ilocLast (rollingMean window (closeCol data))
  let s ← ilocLast (rollingStdE window (closeCol data))
  pure (add (toE m) (mul s (num (num_std_dev : ℝ))),
        sub (toE m) (mul s (num (num_std_dev : ℝ))))

/-- The `true_range` series shared by `calculate_atr` and `calculate_adx`:
`pd.concat([high-low, |high-close.shift()|, |low-close.shift()|], axis=1)
.max(axis=1)` — a skip-NaN row maximum. -/
def trueRangeSeries (data : BarSeries) : List PFloat :=
  let high_low := List.zipWith sub (highCol data) (lowCol data)
  let high_close :=
    (List.zipWith sub (highCol data) (shiftL (closeCol data))).map absF
  let low_close :=
    (List.zipWith sub (lowCol data) (shiftL (closeCol data))).map absF
  List.zipWith pmaxSkip (List.zipWith pmaxSkip high_low high_close) low_close

/-- `calculate_atr(data, period=14)`: rolling mean of the true range, last
element. -/
def calculate_atr (data : BarSeries) (period : ℕ := 14) : Option PFloat :=
  ilocLast (rollingMean period (trueRangeSeries data))

/-- `calculate_adx(data, period=14)`: the simplified signed-DM formula of
the source, `100 * (plus_dm_smoothed - minus_dm_smoothed) / tr_smoothed`,
last element. -/
def calculate_adx (data : BarSeries) (period : ℕ := 14) : Option PFloat :=
  let plus_dm_smoothed := rollingMean period (diffL (highCol data))
  let minus_dm_smoothed :=
    rollingMean period ((diffL (lowCol data)).map neg)
  let tr_smoothed := rollingMean period (trueRangeSeries data)
  ilocLast
    (List.zipWith div
      ((List.zipWith sub plus_dm_smoothed minus_dm_smoothed).map
        fun x => mul (num 100) x)
      tr_smoothed)

/-- `calculate_parabolic_sar`: the documented stub, the latest close. -/
def calculate_parabolic_sar (data : BarSeries) : Option PFloat :=
  ilocLast (closeCol data)

/-- `calculate_obv(data)`:
`(volume * np.sign(close.diff())).cumsum().iloc[-1]`. -/
def calculate_obv (data : BarSeries) : Option PFloat :=
  ilocLast
    (cumsumF (List.zipWith mul (volCol data)
      ((diffL (closeCol data)).map signF)))

/-- The money-flow-volume terms `mfv * volume` of `calculate_cmf`, with
`mfv = (close - low - (high - close)) / (high - low)`. -/
def cmfTerms (data : BarSeries) : List PFloat :=
  let mfv := List.zipWith div
    (List.zipWith sub (List.zipWith sub (closeCol data) (lowCol data))
      (List.zipWith sub (highCol data) (closeCol data)))
    (List.zipWith sub (highCol data) (lowCol data))
  List.zipWith mul mfv (volCol data)

/-- `calculate_cmf(data, period=20)`:
`(mfv * volume).rolling(period).sum() / volume.rolling(period).sum()`,
last element. -/
def calculate_cmf (data : BarSeries) (period : ℕ := 20) : Option PFloat :=
  ilocLast
    (List.zipWith div (rollingSum period (cmfTerms data))
      (rollingSum period (volCol data)))

/-- `calculate_ad_line(data)`: the same multiplier as CMF, multiplied by
volume and cumulatively summed. -/
def calculate_ad_line (data : BarSeries) : Option PFloat :=
  let ad_line := List.zipWith div
    (List.zipWith sub (List.zipWith sub (closeCol data) (lowCol data))
      (List.zipWith sub (highCol data) (closeCol data)))
    (List.zipWith sub (highCol data) (lowCol data))
  ilocLast (cumsumF (List.zipWith mul ad_line (volCol data)))

/-- `calculate_roc(data, period=12)`:
`(close.pct_change(periods=period) * 100).iloc[-1]`. -/
def calculate_roc (data : BarSeries) (period : ℕ := 12) : Option PFloat :=
  ilocLast ((pctChange period (closeCol data)).map fun x => mul x (num 100))

/-- `calculate_williams_r(data, period=14)`:
`(highest_high - close) / (highest_high - lowest_low) * -100`, last
element. -/
def calculate_williams_r (data : BarSeries) (period : ℕ := 14) :
    Option PFloat :=
  let highest_high := rollingMax period (highCol data)
  let lowest_low := rollingMin period (lowCol data)
  ilocLast
    ((List.zipWith div (List.zipWith sub highest_high (closeCol data))
        (List.zipWith sub highest_high lowest_low)).map
      fun x => mul x (num (-100)))

/-- One `{date, indicator_name, value}` record of the catalogue. -/
structure IndicatorRecord where
  date : ℕ
  indicator_name : String
  value : EFloat

/-- `calculate_technical_indicators(data, ticker)`: the full catalogue, in
source order.  Every record is dated `data['Date'].iloc[-1]` (read once
here: the Python code re-reads the same pure value per record); the whole
call raises — `none` — exactly when the series is empty.  The `ticker`
argument is unused, as in the source. -/
noncomputable def calculate_technical_indicators (data : BarSeries)
    (ticker : String) : Option (List IndicatorRecord) := do
  let d ← ilocLast (dateCol data)
  let sma ← calculate_sma data
  let sma20 ← calculate_sma data 20
  let sma50 ← calculate_sma data 50
  let sma100 ← calculate_sma data 100
  let sma200 ← calculate_sma data 200
  let ema ← calculate_ema data
  let ema20 ← calculate_ema data 20
  let ema50 ← calculate_ema data 50
  let ema100 ← calculate_ema data 100
  let ema200 ← calculate_ema data 200
  let rsi ← calculate_rsi data
  let macdPair ← calculate_macd data
  let stoch ← calculate_stochastic data
  let bands ← calculate_bollinger_bands data
  let atr ← calculate_atr data
  let adx ← calculate_adx data
  let obv ← calculate_obv data
  let cmf ← calculate_cmf data
  let ad ← calculate_ad_line data
  let roc ← calculate_roc data
  let wr ← calculate_williams_r data
  pure
    [⟨d, "SMA", toE sma⟩, ⟨d, "SMA_20", toE sma20⟩, ⟨d, "SMA_50", toE sma50⟩,
     ⟨d, "SMA_100", toE sma100⟩, ⟨d, "SMA_200", toE sma200⟩,
     ⟨d, "EMA", toE ema⟩, ⟨d, "EMA_20", toE ema20⟩, ⟨d, "EMA_50", toE ema50⟩,
     ⟨d, "EMA_100", toE ema100⟩, ⟨d, "EMA_200", toE ema200⟩,
     ⟨d, "RSI", toE rsi⟩, ⟨d, "MACD", toE macdPair.1⟩,
     ⟨d, "MACD_Signal", toE macdPair.2⟩, ⟨d, "Stochastic", toE stoch⟩,
     ⟨d, "Bollinger_Upper", bands.1⟩, ⟨d, "Bollinger_Lower", bands.2⟩,
     ⟨d, "ATR", toE atr⟩, ⟨d, "ADX", toE adx⟩, ⟨d, "OBV", toE obv⟩,
     ⟨d, "CMF", toE cmf⟩, ⟨d, "AD_Line", toE ad⟩, ⟨d, "ROC", toE roc⟩,
     ⟨d, "Williams_R", toE wr⟩]

/-! ## General lemmas about the series operations -/

theorem ilocLast_some_of_ne_nil {α : Type} {xs : List α} (h : xs ≠ []) :
    ∃ a, ilocLast xs = some a := by
  cases hx : xs.getLast? with
  | none => exact absurd (List.getLast?_eq_none_iff.mp hx) h
  | some a => exact ⟨a, hx⟩

theorem ilocLast_mem {α : Type} {xs : List α} {a : α}
    (h : ilocLast xs = some a) : a ∈ xs :=
  List.mem_of_mem_getLast? h

theorem ilocLast_map {α β : Type} (f : α → β) :
    ∀ xs : List α, ilocLast (xs.map f) = (ilocLast xs).map f
  | [] => rfl
  | [x] => rfl
  | x :: y :: rest => by
      have ih := ilocLast_map f (y :: rest)
      simp only [ilocLast, List.map_cons] at *
      rw [List.getLast?_cons_cons, List.getLast?_cons_cons, ih]

theorem ilocLast_map_range {α : Type} (n : ℕ) (g : ℕ → α) (h : n ≠ 0) :
    ilocLast ((List.range n).map g) = some (g (n - 1)) := by
  obtain ⟨m, rfl⟩ := Nat.exists_eq_succ_of_ne_zero h
  rw [ilocLast, List.range_succ, List.map_append, List.map_cons, List.map_nil,
    List.getLast?_concat]
  simp

theorem ilocLast_zipWith {α β γ : Type} (f : α → β → γ) :
    ∀ (xs : List α) (ys : List β), xs.length = ys.length →
      ∀ {x : α} {y : β}, ilocLast xs = some x → ilocLast ys = some y →
        ilocLast (List.zipWith f xs ys) = some (f x y)
  | [], [], _, _, _, hx, _ => by simp [ilocLast] at hx
  | [a], [b], _, x, y, hx, hy => by
      simp only [ilocLast, List.getLast?_singleton, Option.some.injEq] at hx hy
      subst hx; subst hy; rfl
  | a :: a2 :: as, [b], h, _, _, _, _ => by simp at h
  | [a], b :: b2 :: bs, h, _, _, _, _ => by simp at h
  | a :: a2 :: as, b :: b2 :: bs, h, x, y, hx, hy => by
      simp only [List.length_cons, Nat.succ.injEq] at h
      have ih := ilocLast_zipWith f (a2 :: as) (b2 :: bs) (by simpa using h)
        (x := x) (y := y) (by rwa [ilocLast, ← List.getLast?_cons_cons (a := a)])
        (by rwa [ilocLast, ← List.getLast?_cons_cons (a := b)])
      rw [List.zipWith_cons_cons, ilocLast]
      cases hzw : List.zipWith f (a2 :: as) (b2 :: bs) with
      | nil => simp at hzw
      | cons c cs => rw [List.getLast?_cons_cons, ← hzw]; exact ih

@[simp] theorem length_rollingApply (w : ℕ) (f : List PFloat → PFloat)
    (xs : List PFloat) : (rollingApply w f xs).length = xs.length := by
  simp [rollingApply]

@[simp] theorem length_rollingMean (w : ℕ) (xs : List PFloat) :
    (rollingMean w xs).length = xs.length := length_rollingApply ..

@[simp] theorem length_rollingSum (w : ℕ) (xs : List PFloat) :
    (rollingSum w xs).length = xs.length := length_rollingApply ..

@[simp] theorem length_rollingMin (w : ℕ) (xs : List PFloat) :
    (rollingMin w xs).length = xs.length := length_rollingApply ..

@[simp] theorem length_rollingMax (w : ℕ) (xs : List PFloat) :
    (rollingMax w xs).length = xs.length := length_rollingApply ..

@[simp] theorem length_rollingStdE (w : ℕ) (xs : List PFloat) :
    (rollingStdE w xs).length = xs.length := by
  simp [rollingStdE]

@[simp] theorem length_diffL : ∀ xs : List PFloat, (diffL xs).length = xs.length
  | [] => rfl
  | x :: rest => by simp [diffL]

@[simp] theorem length_shiftL (xs : List PFloat) :
    (shiftL xs).length = xs.length := by
  simp [shiftL]

@[simp] theorem length_cumsumGo (acc : PFloat) :
    ∀ xs : List PFloat, (cumsumGo acc xs).length = xs.length
  | [] => rfl
  | x :: rest => by
      by_cases hx : x = nan <;>
        simp [cumsumGo, hx, length_cumsumGo]

@[simp] theorem length_cumsumF (xs : List PFloat) :
    (cumsumF xs).length = xs.length := length_cumsumGo ..

@[simp] theorem length_ewmGo (b : ℚ) (n : PFloat) (d : ℚ) :
    ∀ xs : List PFloat, (ewmGo b n d xs).length = xs.length
  | [] => rfl
  | x :: rest => by
      by_cases hx : x = nan <;>
        simp [ewmGo, hx, length_ewmGo]

@[simp] theorem length_ewmAdj (span : ℕ) (xs : List PFloat) :
    (ewmAdj span xs).length = xs.length := length_ewmGo ..

@[simp] theorem length_pctChange (p : ℕ) (xs : List PFloat) :
    (pctChange p xs).length = xs.length := by
  simp [pctChange]

@[simp] theorem length_dateCol (data : BarSeries) :
    (dateCol data).length = data.length := List.length_map ..

@[simp] theorem length_closeCol (data : BarSeries) :
    (closeCol data).length = data.length := List.length_map ..

@[simp] theorem length_highCol (data : BarSeries) :
    (highCol data).length = data.length := List.length_map ..

@[simp] theorem length_lowCol (data : BarSeries) :
    (lowCol data).length = data.length := List.length_map ..

@[simp] theorem length_volCol (data : BarSeries) :
    (volCol data).length = data.length := List.length_map ..

@[simp] theorem length_trueRangeSeries (data : BarSeries) :
    (trueRangeSeries data).length = data.length := by
  simp [trueRangeSeries]

theorem ilocLast_rollingApply (w : ℕ) (f : List PFloat → PFloat)
    {xs : List PFloat} (h : xs ≠ []) :
    ilocLast (rollingApply w f xs) =
      some (if xs.length < w then nan else f (xs.drop (xs.length - w))) := by
  have hn : xs.length ≠ 0 := fun h0 => h (List.length_eq_zero.mp h0)
  rw [rollingApply, ilocLast_map_range _ _ hn]
  have h1 : xs.length - 1 + 1 = xs.length := Nat.succ_pred_eq_of_ne_zero hn
  rw [windowAt, h1, List.take_length]

/-! ## Concrete bar series used as witnesses and counterexamples -/

/-- Builds a bar with the given date, high, low, close and volume (the
unused open equals the close). -/
def mkBar (d : ℕ) (h l c v : ℚ) : Bar := ⟨d, c, h, l, c, v⟩

/-- Fourteen bars of a perfectly constant market. -/
def constBars14 : BarSeries := (List.range 14).map fun i => mkBar i 5 5 5 100

/-- Fourteen bars whose close rises by one per bar. -/
def incBars14 : BarSeries :=
  (List.range 14).map fun i => mkBar i ((i : ℚ) + 2) (i : ℚ) ((i : ℚ) + 1) 100

/-! ## C10: the ticker argument has no influence on the catalogue -/

/-- C10: `calculate_technical_indicators` never reads its `ticker`
argument, so for every bar series and any two tickers the returned record
lists are identical. -/
theorem catalogue_ignores_ticker (data : BarSeries) (t1 t2 : String) :
    calculate_technical_indicators data t1 =
      calculate_technical_indicators data t2 := rfl

/-! ## C2: the catalogue on a zero-bar series -/

/-- C2 (code bug): on a series with zero bars the catalogue builder does
not return an empty list — the very first record construction evaluates
`data['Date'].iloc[-1]`, which raises `IndexError` on an empty frame
(modelled `none`); in particular the result is not `some []`. -/
theorem catalogue_empty_raises :
    calculate_technical_indicators [] "AAPL" = none ∧
      calculate_technical_indicators [] "AAPL" ≠ some [] := by
  have h : calculate_technical_indicators [] "AAPL" = none := rfl
  exact ⟨h, by simp [h]⟩

/-! ## C3: RSI when the rolling average loss is zero -/

/-- C3 counterexample: on fourteen constant bars the average loss at the
last bar is `0`, yet `calculate_rsi` returns NaN (null), not the claimed
boundary value 100: the average gain is also `0`, so `rs = 0/0 = NaN` and
NaN propagates to the result. -/
theorem rsi_zero_loss_cex :
    ilocLast (rsiLossAvg constBars14 14) = some (num 0) ∧
      calculate_rsi constBars14 14 = some GFloat.nan ∧
      some GFloat.nan ≠ some (GFloat.num (100 : ℚ)) :=
  ⟨by with_unfolding_all rfl, by with_unfolding_all rfl, by simp⟩

/-- C3 (amended): when the 14-bar average loss at the last bar is zero,
`calculate_rsi` returns 100 provided the average gain is positive (RS is
then `+inf`); when the average gain is zero as well, it returns NaN
(null).  Either way the division by zero never raises. -/
theorem rsi_zero_loss_amended :
    (∀ (data : BarSeries) (g : ℚ),
        ilocLast (rsiLossAvg data 14) = some (num 0) →
        ilocLast (rsiGainAvg data 14) = some (num g) → 0 < g →
        calculate_rsi data 14 = some (num 100))
    ∧ (∀ data : BarSeries,
        ilocLast (rsiLossAvg data 14) = some (num 0) →
        ilocLast (rsiGainAvg data 14) = some (num 0) →
        calculate_rsi data 14 = some GFloat.nan) := by
  constructor
  · intro data g hl hg hgpos
    have hlen : (rsiGainAvg data 14).length = (rsiLossAvg data 14).length := by
      simp [rsiGainAvg, rsiLossAvg]
    have hrs := ilocLast_zipWith div _ _ hlen hg hl
    rw [calculate_rsi, ilocLast_map, hrs]
    have hdiv : div (num g) (num (0 : ℚ)) = inf := by
      simp [GFloat.div, hgpos]
    rw [Option.map_some', hdiv]
    simp [GFloat.sub, GFloat.add, GFloat.div, GFloat.neg]
  · intro data hl hg
    have hlen : (rsiGainAvg data 14).length = (rsiLossAvg data 14).length := by
      simp [rsiGainAvg, rsiLossAvg]
    have hrs := ilocLast_zipWith div _ _ hlen hg hl
    rw [calculate_rsi, ilocLast_map, hrs]
    have hdiv : div (num (0 : ℚ)) (num (0 : ℚ)) = nan := by
      simp [GFloat.div]
    rw [Option.map_some', hdiv]
    simp [GFloat.sub, GFloat.add, GFloat.div, GFloat.neg]

/-- Witness for the amended C3 at a concrete series: fourteen rising bars
have average loss `0` and average gain `13/14 > 0` at the last bar, and
RSI is exactly 100 there. -/
theorem rsi_zero_loss_amended_witness :
    ilocLast (rsiLossAvg incBars14 14) = some (num 0) ∧
      (0 : ℚ) < 13 / 14 ∧
      calculate_rsi incBars14 14 = some (num 100) :=
  ⟨by with_unfolding_all rfl, by norm_num,
    rsi_zero_loss_amended.1 incBars14 (13 / 14)
      (by with_unfolding_all rfl) (by with_unfolding_all rfl) (by norm_num)⟩

/-! ## C5: the EMA/SMA short-history asymmetry -/

theorem ilocLast_cons {α : Type} (x : α) {xs : List α} (h : xs ≠ []) :
    ilocLast (x :: xs) = ilocLast xs := by
  cases xs with
  | nil => exact absurd rfl h
  | cons y ys => rw [ilocLast, ilocLast, List.getLast?_cons_cons]

theorem ewmGo_cons (b : ℚ) (n : PFloat) (d x : ℚ) (xs : List PFloat) :
    ewmGo b n d (num x :: xs) =
      div (add (mul n (num b)) (num x)) (num (d * b + 1)) ::
        ewmGo b (add (mul n (num b)) (num x)) (d * b + 1) xs := by
  simp [ewmGo]

theorem ewmGo_last (b : ℚ) (hb : 0 ≤ b) :
    ∀ (qs : List ℚ) (c d : ℚ), 0 ≤ d → qs ≠ [] →
      ilocLast (ewmGo b (num c) d (qs.map num)) =
        some (num ((qs.foldl (fun y x => y * b + x) c) /
          (qs.foldl (fun y _ => y * b + 1) d)))
  | [], _, _, _, h => absurd rfl h
  | [q], c, d, hd, _ => by
      have hne : d * b + 1 ≠ 0 := by positivity
      rw [List.map_cons, List.map_nil, ewmGo_cons]
      simp [ilocLast, ewmGo, GFloat.mul, GFloat.add, GFloat.div, hne,
        mul_comm b c, mul_comm b d]
  | q :: q2 :: rest, c, d, hd, _ => by
      have hd2 : 0 ≤ d * b + 1 := by positivity
      have ih := ewmGo_last b hb (q2 :: rest) (c * b + q) (d * b + 1) hd2
        (by simp)
      rw [List.map_cons, ewmGo_cons]
      have hnum : add (mul (num c) (num b)) (num q) = num (c * b + q) := rfl
      rw [hnum]
      have hlen : ewmGo b (num (c * b + q)) (d * b + 1)
          ((q2 :: rest).map num) ≠ [] := by
        intro hnil
        have := length_ewmGo b (num (c * b + q)) (d * b + 1)
          ((q2 :: rest).map num)
        rw [hnil] at this
        simp at this
      rw [ilocLast_cons _ hlen, ih]
      simp [mul_comm b c, mul_comm b d]

/-- Follows the claim text of C5 (not the source): the recursive EMA with
smoothing factor `a`, seeded from the first close — `y0 = x0`,
`y = (1-a)·y + a·x` for each later close. -/
def specRecursiveEMA (a : ℚ) : List ℚ → Option ℚ
  | [] => none
  | x :: rest => some (rest.foldl (fun y x2 => (1 - a) * y + a * x2) x)

/-- Two bars with closes 1 and 3. -/
def emaBars : BarSeries := [mkBar 0 2 0 1 5, mkBar 1 4 2 3 7]

/-- Two bars with closes 2 and 4. -/
def twoBars : BarSeries := [mkBar 0 3 1 2 10, mkBar 1 5 3 4 10]

/-- One bar with close 2. -/
def oneBar : BarSeries := [mkBar 0 3 1 2 10]

/-- C5 counterexample: the code's EMA is the pandas `adjust=True` weighted
mean, not the recursive seeded recurrence the claim describes.  On two
bars with closes 1 and 3 and period 14 the code returns `29/14`, while the
recursive EMA with `α = 2/15` seeded from the first close is `19/15`. -/
theorem ema_not_recursive_cex :
    calculate_ema emaBars 14 = some (num (29 / 14)) ∧
      specRecursiveEMA (2 / ((14 : ℚ) + 1)) (emaBars.map Bar.close_price) =
        some (19 / 15) ∧
      (29 / 14 : ℚ) ≠ 19 / 15 :=
  ⟨by with_unfolding_all rfl, by with_unfolding_all rfl,
    by with_unfolding_all decide⟩

/-- C5 (amended): for every non-empty series with fewer than `period`
bars, `calculate_ema` is non-null — it is the adjusted (pandas
`adjust=True`, `min_periods=1`) exponentially weighted mean of the closes,
a finite value from the very first bar onward — while `calculate_sma`
returns null. -/
theorem ema_sma_short_history (data : BarSeries) (period : ℕ)
    (hne : data ≠ []) (hlen : data.length < period) :
    calculate_ema data period =
      some (num (((data.map Bar.close_price).foldl
          (fun y x => y * (1 - 2 / ((period : ℚ) + 1)) + x) 0) /
        ((data.map Bar.close_price).foldl
          (fun y _ => y * (1 - 2 / ((period : ℚ) + 1)) + 1) 0))) ∧
      calculate_sma data period = some GFloat.nan := by
  have hp : 1 ≤ period := by
    rcases data with _ | ⟨b, rest⟩
    · exact absurd rfl hne
    · simp only [List.length_cons] at hlen; omega
  have hb : 0 ≤ 1 - 2 / ((period : ℚ) + 1) := by
    have h1 : (1 : ℚ) ≤ (period : ℚ) := by exact_mod_cast hp
    have h2 : (0 : ℚ) < (period : ℚ) + 1 := by linarith
    rw [sub_nonneg, div_le_one h2]
    linarith
  have hqs : data.map Bar.close_price ≠ [] := by
    simpa using hne
  constructor
  · have hcol : closeCol data = (data.map Bar.close_price).map num := by
      simp [closeCol, List.map_map]
    rw [calculate_ema, ewmAdj, hcol]
    exact ewmGo_last _ hb _ 0 0 le_rfl hqs
  · have hcne : closeCol data ≠ [] := by
      simp only [closeCol]; simpa using hne
    rw [calculate_sma, rollingMean, ilocLast_rollingApply _ _ hcne]
    have hlt : (closeCol data).length < period := by simpa using hlen
    rw [if_pos hlt]

/-- Witness for the amended C5: two bars (closes 2 and 4) with period 14;
the EMA is the finite adjusted weighted mean (concretely `43/14`) and the
SMA is null. -/
theorem ema_sma_short_history_witness :
    (calculate_ema twoBars 14 =
        some (num (((twoBars.map Bar.close_price).foldl
            (fun y x => y * (1 - 2 / ((14 : ℚ) + 1)) + x) 0) /
          ((twoBars.map Bar.close_price).foldl
            (fun y _ => y * (1 - 2 / ((14 : ℚ) + 1)) + 1) 0))) ∧
      calculate_sma twoBars 14 = some GFloat.nan) ∧
      calculate_ema twoBars 14 = some (num (43 / 14)) :=
  ⟨ema_sma_short_history twoBars 14 (by simp [twoBars]) (by decide),
    by with_unfolding_all rfl⟩

/-! ## C6: SMA over an exact window -/

/-- C6 counterexample: with period `N = 1`, the claim's second half speaks
of a series with `N - 1 = 0` bars; there `calculate_sma` raises
`IndexError` (modelled `none`) rather than returning a null value. -/
theorem sma_empty_cex :
    calculate_sma ([] : BarSeries) 1 = none ∧
      ∀ v : PFloat, calculate_sma ([] : BarSeries) 1 ≠ some v := by
  have h : calculate_sma ([] : BarSeries) 1 = none := rfl
  exact ⟨h, fun v hv => by rw [h] at hv; exact Option.noConfusion hv⟩

theorem sumF_foldl (c : ℚ) :
    ∀ qs : List ℚ, (qs.map num).foldl add (num c) = num (c + qs.sum)
  | [] => by simp [sumF]
  | q :: rest => by
      simp only [List.map_cons, List.foldl_cons, GFloat.add, List.sum_cons]
      rw [sumF_foldl (c + q) rest, add_assoc]

theorem sumF_map_num (qs : List ℚ) : sumF (qs.map num) = num qs.sum := by
  rw [sumF, sumF_foldl]; rw [zero_add]

/-- C6 (amended): for every series with exactly `N ≥ 1` bars,
`calculate_sma` with period `N` returns the arithmetic mean of the `N`
closes; for every series with `N - 1` bars and `N ≥ 2` (so that the series
is non-empty — on zero bars the function raises instead, see the
counterexample) it returns null. -/
theorem sma_window_exact :
    (∀ (N : ℕ) (data : BarSeries), 1 ≤ N → data.length = N →
        calculate_sma data N =
          some (num ((data.map Bar.close_price).sum / (N : ℚ))))
    ∧ (∀ (N : ℕ) (data : BarSeries), 2 ≤ N → data.length = N - 1 →
        calculate_sma data N = some GFloat.nan) := by
  constructor
  · intro N data hN hlen
    have hcne : closeCol data ≠ [] := by
      intro h
      have hl := length_closeCol data
      rw [h] at hl
      simp at hl
      omega
    rw [calculate_sma, rollingMean, ilocLast_rollingApply _ _ hcne]
    have hlc : (closeCol data).length = N := by simp [hlen]
    have hNflt : ¬ (closeCol data).length < N := by omega
    have hdrop : (closeCol data).drop ((closeCol data).length - N) =
        closeCol data := by
      rw [hlc]; simp
    rw [if_neg hNflt, hdrop]
    have hcol : closeCol data = (data.map Bar.close_price).map num := by
      simp [closeCol, List.map_map]
    rw [hcol, sumF_map_num]
    have h0 : 0 < N := by omega
    have hNne : (N : ℚ) ≠ 0 := by exact_mod_cast h0.ne'
    simp [GFloat.div, hNne]
  · intro N data hN hlen
    have hcne : closeCol data ≠ [] := by
      intro h
      have hl := length_closeCol data
      rw [h] at hl
      simp at hl
      omega
    rw [calculate_sma, rollingMean, ilocLast_rollingApply _ _ hcne]
    have hlt : (closeCol data).length < N := by
      simp only [length_closeCol, hlen]; omega
    rw [if_pos hlt]

/-- Witness for the amended C6 at `N = 2`: the mean of closes 2 and 4 over
exactly two bars (concretely 3), and null over one bar. -/
theorem sma_window_exact_witness :
    (calculate_sma twoBars 2 =
        some (num ((twoBars.map Bar.close_price).sum / (2 : ℚ))) ∧
      calculate_sma oneBar 2 = some GFloat.nan) ∧
      calculate_sma twoBars 2 = some (num 3) :=
  ⟨⟨sma_window_exact.1 2 twoBars (by norm_num) (by decide),
    sma_window_exact.2 2 oneBar (by norm_num) (by decide)⟩,
    by with_unfolding_all rfl⟩

/-! ## C7: OBV under appending one bar -/

/-- Rational sign, the finite case of `np.sign`. -/
def signQ (q : ℚ) : ℚ := if 0 < q then 1 else if q < 0 then -1 else 0

/-- The OBV term series with an explicit previous close carried along:
term for a bar is `volume * sign(close - prev)`, where `prev` is NaN for
the first bar of the whole series. -/
def obvTermsAux (p : PFloat) : BarSeries → List PFloat
  | [] => []
  | b :: rest =>
      mul (num b.volume) (signF (sub (num b.close_price) p)) ::
        obvTermsAux (num b.close_price) rest

theorem sub_nan (x : PFloat) : sub x nan = nan := by
  cases x <;> rfl

theorem diffL_eq (xs : List PFloat) :
    diffL xs = List.zipWith sub xs (nan :: xs) := by
  cases xs with
  | nil => rfl
  | cons x rest => rw [diffL, List.zipWith_cons_cons, sub_nan]

theorem obv_terms : ∀ (data : BarSeries) (p : PFloat),
    List.zipWith mul (volCol data)
      ((List.zipWith sub (closeCol data) (p :: closeCol data)).map signF) =
      obvTermsAux p data
  | [], _ => rfl
  | b :: rest, p => by
      simp only [volCol, closeCol, List.map_cons, List.zipWith_cons_cons,
        obvTermsAux]
      have ih := obv_terms rest (num b.close_price)
      simp only [volCol, closeCol] at ih
      rw [ih]

theorem calculate_obv_eq (data : BarSeries) :
    calculate_obv data = ilocLast (cumsumF (obvTermsAux nan data)) := by
  rw [calculate_obv, diffL_eq, obv_terms]

/-- The OBV term of a bar whose previous close is finite is the finite
value `volume * sign(close - prev)`. -/
theorem obvTerm_num (v x c : ℚ) :
    mul (num v) (signF (sub (num x) (num c))) = num (v * signQ (x - c)) := by
  simp [GFloat.mul, GFloat.sub, GFloat.add, GFloat.neg, GFloat.signF, signQ,
    sub_eq_add_neg]

theorem obvTermsAux_append :
    ∀ (s : BarSeries) (p : PFloat) (b lb : Bar), s.getLast? = some lb →
      obvTermsAux p (s ++ [b]) =
        obvTermsAux p s ++
          [mul (num b.volume) (signF (sub (num b.close_price)
            (num lb.close_price)))]
  | [], _, _, _, h => by simp [ilocLast] at h
  | [a], p, b, lb, h => by
      simp only [List.getLast?_singleton, Option.some.injEq] at h
      subst h
      rfl
  | a :: a2 :: rest, p, b, lb, h => by
      rw [List.getLast?_cons_cons] at h
      have ih := obvTermsAux_append (a2 :: rest) (num a.close_price) b lb h
      calc obvTermsAux p ((a :: a2 :: rest) ++ [b])
          = mul (num a.volume) (signF (sub (num a.close_price) p)) ::
              obvTermsAux (num a.close_price) ((a2 :: rest) ++ [b]) := rfl
        _ = mul (num a.volume) (signF (sub (num a.close_price) p)) ::
              (obvTermsAux (num a.close_price) (a2 :: rest) ++
                [mul (num b.volume) (signF (sub (num b.close_price)
                  (num lb.close_price)))]) := by rw [ih]
        _ = obvTermsAux p (a :: a2 :: rest) ++
              [mul (num b.volume) (signF (sub (num b.close_price)
                (num lb.close_price)))] := rfl

/-- Fold of the skip-NaN running total used by `cumsum`. -/
def sumSkip (acc : PFloat) (xs : List PFloat) : PFloat :=
  xs.foldl (fun a x => if x = nan then a else add a x) acc

theorem cumsumGo_append (y : PFloat) :
    ∀ (xs : List PFloat) (acc : PFloat),
      cumsumGo acc (xs ++ [y]) =
        cumsumGo acc xs ++ [if y = nan then nan else add (sumSkip acc xs) y]
  | [], acc => by
      by_cases hy : y = nan <;> simp [cumsumGo, sumSkip, hy]
  | x :: xs, acc => by
      by_cases hx : x = nan
      · simp only [List.cons_append, cumsumGo, if_pos hx, List.append_eq]
        rw [cumsumGo_append y xs acc]
        simp [sumSkip, hx]
      · simp only [List.cons_append, cumsumGo, if_neg hx, List.append_eq]
        rw [cumsumGo_append y xs (add acc x)]
        simp [sumSkip, hx]

theorem ilocLast_cumsum_concat (acc : PFloat) (xs : List PFloat)
    {y : PFloat} (hy : y ≠ nan) :
    ilocLast (cumsumGo acc (xs ++ [y])) = some (add (sumSkip acc xs) y) := by
  rw [cumsumGo_append, ilocLast, List.getLast?_concat, if_neg hy]

theorem sumSkip_concat (acc : PFloat) (xs : List PFloat) {y : PFloat}
    (hy : y ≠ nan) :
    sumSkip acc (xs ++ [y]) = add (sumSkip acc xs) y := by
  simp [sumSkip, List.foldl_append, hy]

/-- One-bar series for the OBV counterexample (close 1, volume 5). -/
def oneBarObv : BarSeries := [mkBar 0 3 1 1 5]

/-- The appended bar for the OBV claims (close 3, volume 7). -/
def obvBarB : Bar := mkBar 1 5 3 3 7

/-- C7 counterexample: on a one-bar series the OBV is NaN (the cumulative
sum of the single NaN sign term), so the claimed identity value
`OBV(series) + volume*sign(close difference)` is NaN while the code's
`OBV(series ++ [bar])` is the finite 7 — the identity fails. -/
theorem obv_append_cex :
    oneBarObv.getLast? = some (mkBar 0 3 1 1 5) ∧
      calculate_obv (oneBarObv ++ [obvBarB]) = some (num 7) ∧
      (calculate_obv oneBarObv).map
        (fun o => add o (num (obvBarB.volume *
          signQ (obvBarB.close_price - (mkBar 0 3 1 1 5).close_price)))) =
        some GFloat.nan ∧
      some (num (7 : ℚ)) ≠ some GFloat.nan :=
  ⟨by with_unfolding_all rfl, by with_unfolding_all rfl,
    by with_unfolding_all rfl, by simp⟩

/-- C7 (amended): for every series with at least two bars — so that its
own OBV is a finite cumulative value, not the NaN of a one-bar series —
appending one bar adds exactly the term
`volume(bar) * sign(close(bar) - close(last bar))` and never changes the
contribution of earlier bars. -/
theorem obv_append (s : BarSeries) (b lb : Bar) (hlen : 2 ≤ s.length)
    (hlast : s.getLast? = some lb) :
    calculate_obv (s ++ [b]) =
      (calculate_obv s).map
        (fun o => add o
          (num (b.volume * signQ (b.close_price - lb.close_price)))) := by
  have hne : s ≠ [] := by
    intro h; rw [h] at hlen; simp at hlen
  have hlb : s.getLast hne = lb := by
    have := List.getLast?_eq_getLast s hne
    rw [hlast] at this
    exact ((Option.some.injEq _ _).mp this).symm
  have hdec : s.dropLast ++ [lb] = s := by
    rw [← hlb]; exact List.dropLast_append_getLast hne
  have hdne : s.dropLast ≠ [] := by
    intro h
    have := congrArg List.length hdec
    rw [h] at this
    simp at this
    omega
  obtain ⟨lb2, hlb2⟩ := ilocLast_some_of_ne_nil hdne
  have htermS : obvTermsAux nan s =
      obvTermsAux nan s.dropLast ++
        [num (lb.volume * signQ (lb.close_price - lb2.close_price))] := by
    rw [← hdec, obvTermsAux_append s.dropLast nan lb lb2 hlb2, obvTerm_num,
      hdec]
  have htermSB : obvTermsAux nan (s ++ [b]) =
      obvTermsAux nan s ++
        [num (b.volume * signQ (b.close_price - lb.close_price))] := by
    rw [obvTermsAux_append s nan b lb hlast, obvTerm_num]
  have hnumne : ∀ q : ℚ, (num q : PFloat) ≠ nan := fun q h =>
    GFloat.noConfusion h
  rw [calculate_obv_eq, calculate_obv_eq, cumsumF, cumsumF, htermSB,
    ilocLast_cumsum_concat _ _ (hnumne _), htermS,
    sumSkip_concat _ _ (hnumne _),
    ilocLast_cumsum_concat _ _ (hnumne _), Option.map_some']

/-- The bar appended to `twoBars` in the OBV witness (close 5, volume 9). -/
def obvBarC : Bar := mkBar 2 6 4 5 9

/-- Witness for the amended C7: appending a bar with close 5 and volume 9
to the two-bar series (closes 2 and 4, OBV 10) adds exactly `9 * sign(1)`,
giving 19. -/
theorem obv_append_witness :
    (calculate_obv (twoBars ++ [obvBarC]) =
        (calculate_obv twoBars).map
          (fun o => add o (num (obvBarC.volume *
            signQ (obvBarC.close_price - (mkBar 1 5 3 4 10).close_price))))) ∧
      calculate_obv (twoBars ++ [obvBarC]) = some (num 19) :=
  ⟨obv_append twoBars obvBarC (mkBar 1 5 3 4 10) (by decide)
      (by with_unfolding_all rfl),
    by with_unfolding_all rfl⟩

/-! ## C9: CMF and zero-range bars -/

theorem zipWith_map_same {α β γ δ : Type} (f : β → γ → δ) (g : α → β)
    (h : α → γ) : ∀ xs : List α,
    List.zipWith f (xs.map g) (xs.map h) = xs.map fun x => f (g x) (h x)
  | [] => rfl
  | x :: rest => by
      simp only [List.map_cons, List.zipWith_cons_cons]
      rw [zipWith_map_same f g h rest]

/-- The money-flow-volume term of one bar. -/
def cmfBarTerm (b : Bar) : PFloat :=
  mul (div (sub (sub (num b.close_price) (num b.low_price))
      (sub (num b.high_price) (num b.close_price)))
    (sub (num b.high_price) (num b.low_price))) (num b.volume)

theorem cmfTerms_eq (data : BarSeries) :
    cmfTerms data = data.map cmfBarTerm := by
  simp only [cmfTerms, closeCol, lowCol, highCol, volCol, zipWith_map_same]
  rfl

/-- On a bar whose high equals its low and whose close sits at that shared
price, the money-flow multiplier is `0/0`, i.e. NaN, and so is the term. -/
theorem cmfBarTerm_nan {b : Bar} (hh : b.high_price = b.low_price)
    (hc : b.close_price = b.low_price) :
    cmfBarTerm b = GFloat.nan := by
  simp [cmfBarTerm, hh, hc, GFloat.sub, GFloat.add, GFloat.neg, GFloat.div,
    GFloat.mul]

theorem add_nan (x : PFloat) : add x nan = nan := by
  cases x <;> rfl

theorem nan_add (y : PFloat) : add nan y = nan := by
  cases y <;> rfl

theorem foldl_add_nan : ∀ ys : List PFloat, ys.foldl add nan = nan
  | [] => rfl
  | y :: rest => by
      rw [List.foldl_cons, nan_add, foldl_add_nan rest]

theorem sumF_of_mem_nan {ys : List PFloat} (h : nan ∈ ys) : sumF ys = nan := by
  rw [sumF]
  generalize (num 0 : PFloat) = acc
  induction ys generalizing acc with
  | nil => simp at h
  | cons y rest ih =>
      rcases List.mem_cons.mp h with hy | hy
      · rw [← hy, List.foldl_cons, add_nan, foldl_add_nan]
      · rw [List.foldl_cons]
        exact ih hy _

theorem div_nan_left (y : PFloat) : div nan y = nan := by
  cases y <;> rfl

/-- C9 (amended): for every series of at least 20 bars that has, inside
the trailing 20-bar window, a bar with zero range whose close sits at that
shared price (as the `low ≤ close ≤ high` sanity condition of the data
model forces), the CMF is null: that bar's multiplier is `0/0 = NaN` and
the NaN poisons the whole rolling money-flow sum. -/
theorem cmf_zero_range_null (data : BarSeries) (hlen : 20 ≤ data.length)
    (hex : ∃ b ∈ data.drop (data.length - 20),
      b.high_price = b.low_price ∧ b.close_price = b.low_price) :
    calculate_cmf data 20 = some GFloat.nan := by
  obtain ⟨b, hbmem, hh, hc⟩ := hex
  have hne : data ≠ [] := by
    intro h; rw [h] at hlen; simp at hlen
  have htne : cmfTerms data ≠ [] := by
    rw [cmfTerms_eq]
    simpa using hne
  have hvne : volCol data ≠ [] := by
    simp only [volCol]; simpa using hne
  have hnum : ilocLast (rollingSum 20 (cmfTerms data)) = some GFloat.nan := by
    rw [rollingSum, ilocLast_rollingApply _ _ htne]
    have hlt : ¬ (cmfTerms data).length < 20 := by
      rw [cmfTerms_eq]; simp; omega
    rw [if_neg hlt]
    have hwin : (cmfTerms data).drop ((cmfTerms data).length - 20) =
        (data.drop (data.length - 20)).map cmfBarTerm := by
      rw [cmfTerms_eq, List.length_map, List.map_drop]
    rw [hwin]
    have : GFloat.nan ∈ (data.drop (data.length - 20)).map cmfBarTerm := by
      rw [← cmfBarTerm_nan hh hc]
      exact List.mem_map_of_mem cmfBarTerm hbmem
    rw [sumF_of_mem_nan this]
  obtain ⟨dval, hd⟩ := @ilocLast_some_of_ne_nil PFloat
    (rollingSum 20 (volCol data)) (by
      intro h
      have := length_rollingSum 20 (volCol data)
      rw [h] at this
      simp at this
      exact hne (List.length_eq_zero.mp this.symm))
  have hlens : (rollingSum 20 (cmfTerms data)).length =
      (rollingSum 20 (volCol data)).length := by
    simp [cmfTerms_eq]
  rw [calculate_cmf, ilocLast_zipWith div _ _ hlens hnum hd, div_nan_left]

/-- Twenty bars, one of which (index 10) has `high = low = close = 1`. -/
def cmfOk : BarSeries :=
  [mkBar 0 2 0 1 1, mkBar 1 2 0 1 1, mkBar 2 2 0 1 1, mkBar 3 2 0 1 1,
   mkBar 4 2 0 1 1, mkBar 5 2 0 1 1, mkBar 6 2 0 1 1, mkBar 7 2 0 1 1,
   mkBar 8 2 0 1 1, mkBar 9 2 0 1 1, mkBar 10 1 1 1 1, mkBar 11 2 0 1 1,
   mkBar 12 2 0 1 1, mkBar 13 2 0 1 1, mkBar 14 2 0 1 1, mkBar 15 2 0 1 1,
   mkBar 16 2 0 1 1, mkBar 17 2 0 1 1, mkBar 18 2 0 1 1, mkBar 19 2 0 1 1]

/-- Twenty bars, one of which (index 10) has `high = low = 1` but close 2,
outside the degenerate bar's range. -/
def cmfBad : BarSeries :=
  [mkBar 0 2 0 1 1, mkBar 1 2 0 1 1, mkBar 2 2 0 1 1, mkBar 3 2 0 1 1,
   mkBar 4 2 0 1 1, mkBar 5 2 0 1 1, mkBar 6 2 0 1 1, mkBar 7 2 0 1 1,
   mkBar 8 2 0 1 1, mkBar 9 2 0 1 1, mkBar 10 1 1 2 1, mkBar 11 2 0 1 1,
   mkBar 12 2 0 1 1, mkBar 13 2 0 1 1, mkBar 14 2 0 1 1, mkBar 15 2 0 1 1,
   mkBar 16 2 0 1 1, mkBar 17 2 0 1 1, mkBar 18 2 0 1 1, mkBar 19 2 0 1 1]

/-- C9 counterexample: `cmfBad` has 20 bars and a zero-range bar inside
the trailing window, but — because that bar's close (2) lies outside its
degenerate range — the multiplier is `2/0 = +inf`, the rolling sum is
`+inf`, and the CMF is `+inf`, not null. -/
theorem cmf_zero_range_cex :
    (20 ≤ cmfBad.length ∧
      ∃ b ∈ cmfBad.drop (cmfBad.length - 20),
        b.high_price = b.low_price) ∧
      calculate_cmf cmfBad 20 = some GFloat.inf ∧
      some (GFloat.inf : PFloat) ≠ some GFloat.nan :=
  ⟨⟨by decide, ⟨mkBar 10 1 1 2 1, by simp [cmfBad], rfl⟩⟩,
    by with_unfolding_all rfl, by simp⟩

/-- Witness for the amended C9: on `cmfOk`, whose zero-range bar closes at
the degenerate price, the CMF is null. -/
theorem cmf_zero_range_null_witness :
    calculate_cmf cmfOk 20 = some GFloat.nan :=
  cmf_zero_range_null cmfOk (by decide)
    ⟨mkBar 10 1 1 1 1, by simp [cmfOk], rfl, rfl⟩

/-! ## C8: ATR as the rolling mean of the true range -/

/-- Follows the claim text of C8 (not the source): the per-bar true range
with the previous close carried explicitly; on the first bar of the series
(no previous close) it degrades to `high - low`. -/
def specTrueRange : Option ℚ → BarSeries → List ℚ
  | _, [] => []
  | none, b :: rest =>
      (b.high_price - b.low_price) :: specTrueRange (some b.close_price) rest
  | some c, b :: rest =>
      max (max (b.high_price - b.low_price) |b.high_price - c|)
          |b.low_price - c| :: specTrueRange (some b.close_price) rest

/-- The code's true-range pipeline with the shifted previous close made
explicit, for the induction below. -/
def codeTRAux (p : PFloat) (data : BarSeries) : List PFloat :=
  List.zipWith pmaxSkip
    (List.zipWith pmaxSkip
      (List.zipWith sub (highCol data) (lowCol data))
      ((List.zipWith sub (highCol data)
        ((p :: closeCol data).take data.length)).map absF))
    ((List.zipWith sub (lowCol data)
      ((p :: closeCol data).take data.length)).map absF)

theorem trueRangeSeries_eq_aux (data : BarSeries) :
    trueRangeSeries data = codeTRAux nan data := by
  simp [trueRangeSeries, codeTRAux, shiftL, length_closeCol]

theorem codeTRAux_spec : ∀ (data : BarSeries) (p : PFloat) (pc : Option ℚ),
    ((p = nan ∧ pc = none) ∨ (∃ c, p = num c ∧ pc = some c)) →
    codeTRAux p data = (specTrueRange pc data).map num
  | [], p, pc, hp => by
      rcases hp with ⟨rfl, rfl⟩ | ⟨c, rfl, rfl⟩ <;> rfl
  | b :: rest, p, pc, hp => by
      have ih := codeTRAux_spec rest (num b.close_price)
        (some b.close_price) (Or.inr ⟨b.close_price, rfl, rfl⟩)
      rcases hp with ⟨rfl, rfl⟩ | ⟨c, rfl, rfl⟩ <;>
      · simp only [codeTRAux, specTrueRange, highCol, lowCol, closeCol,
          List.map_cons, List.length_cons, List.take_succ_cons,
          List.zipWith_cons_cons] at ih ⊢
        rw [ih]
        congr 1
        simp [GFloat.sub, GFloat.add, GFloat.neg, GFloat.absF,
          GFloat.pmaxSkip, sub_eq_add_neg]

theorem trueRangeSeries_spec (data : BarSeries) :
    trueRangeSeries data = (specTrueRange none data).map num := by
  rw [trueRangeSeries_eq_aux]
  exact codeTRAux_spec data nan none (Or.inl ⟨rfl, rfl⟩)

theorem length_specTrueRange :
    ∀ (data : BarSeries) (pc : Option ℚ),
      (specTrueRange pc data).length = data.length
  | [], pc => by cases pc <;> rfl
  | b :: rest, pc => by
      cases pc <;>
        simp [specTrueRange, length_specTrueRange rest (some b.close_price)]

/-- C8: for every series with at least 14 bars, the ATR is the mean of the
last 14 spec-side true-range values — `max(high-low, |high-prev_close|,
|low-prev_close|)` per bar, degrading to `high-low` on the first bar. -/
theorem atr_rolling_true_range (data : BarSeries) (hlen : 14 ≤ data.length) :
    calculate_atr data 14 =
      some (num (((specTrueRange none data).drop (data.length - 14)).sum /
        14)) := by
  have hne : data ≠ [] := by
    intro h; rw [h] at hlen; simp at hlen
  have htrne : trueRangeSeries data ≠ [] := by
    intro h
    have := length_trueRangeSeries data
    rw [h] at this
    simp at this
    omega
  rw [calculate_atr, rollingMean, ilocLast_rollingApply _ _ htrne]
  have hnlt : ¬ (trueRangeSeries data).length < 14 := by
    simp only [length_trueRangeSeries]; omega
  rw [if_neg hnlt, length_trueRangeSeries, trueRangeSeries_spec,
    ← List.map_drop, sumF_map_num]
  have h14 : ((14 : ℕ) : ℚ) ≠ 0 := by norm_num
  simp [GFloat.div, h14]

/-- Witness for C8: on the fourteen rising bars with `high = close + 1`
and `low = close - 1` every true range is 2, so the ATR is 2. -/
theorem atr_rolling_true_range_witness :
    (calculate_atr incBars14 14 =
        some (num (((specTrueRange none incBars14).drop
          (incBars14.length - 14)).sum / 14))) ∧
      calculate_atr incBars14 14 = some (num 2) :=
  ⟨atr_rolling_true_range incBars14 (by simp [incBars14]),
    by with_unfolding_all rfl⟩

/-! ## C4: Bollinger Bands -/

/-- The closes in the trailing `w`-bar window of a series. -/
def lastCloses (w : ℕ) (data : BarSeries) : List ℚ :=
  (data.map Bar.close_price).drop (data.length - w)

/-- Follows the claim text of C4 (not the source): the population variance
of a window (divide by `n`, no Bessel correction). -/
def specPopVar (qs : List ℚ) : ℚ :=
  ((qs.map fun x => (x - meanQ qs) ^ 2).sum) / qs.length

theorem allQ_map_num : ∀ qs : List ℚ, allQ (qs.map num) = some qs
  | [] => rfl
  | q :: rest => by simp [allQ, allQ_map_num rest]

theorem closeCol_eq (data : BarSeries) :
    closeCol data = (data.map Bar.close_price).map num := by
  simp [closeCol, List.map_map]

theorem closeCol_drop (data : BarSeries) (w : ℕ) :
    (closeCol data).drop (data.length - w) = (lastCloses w data).map num := by
  rw [closeCol_eq, lastCloses, ← List.map_drop]

theorem length_lastCloses (data : BarSeries) {w : ℕ}
    (h : w ≤ data.length) : (lastCloses w data).length = w := by
  simp only [lastCloses, List.length_drop, List.length_map]
  omega

theorem bollinger_mean_last (data : BarSeries) (h : 20 ≤ data.length) :
    ilocLast (rollingMean 20 (closeCol data)) =
      some (num (meanQ (lastCloses 20 data))) := by
  have hne : closeCol data ≠ [] := by
    intro hnil
    have := length_closeCol data
    rw [hnil] at this
    simp at this
    omega
  rw [rollingMean, ilocLast_rollingApply _ _ hne]
  have hnlt : ¬ (closeCol data).length < 20 := by
    rw [length_closeCol]; omega
  rw [if_neg hnlt, length_closeCol, closeCol_drop, sumF_map_num]
  have h20 : ((20 : ℕ) : ℚ) ≠ 0 := by norm_num
  have hlen20 : ((lastCloses 20 data).length : ℚ) = 20 := by
    rw [length_lastCloses data h]; norm_num
  simp [GFloat.div, h20, meanQ, hlen20]

theorem bollinger_std_last (data : BarSeries) (h : 20 ≤ data.length) :
    ilocLast (rollingStdE 20 (closeCol data)) =
      some (num (Real.sqrt ((varQ (lastCloses 20 data) : ℚ) : ℝ))) := by
  have hn0 : (closeCol data).length ≠ 0 := by rw [length_closeCol]; omega
  rw [rollingStdE, ilocLast_map_range _ _ hn0]
  have hidx : (closeCol data).length - 1 + 1 = (closeCol data).length :=
    Nat.succ_pred_eq_of_ne_zero hn0
  rw [hidx]
  have hnlt : ¬ (closeCol data).length < 20 := by
    rw [length_closeCol]; omega
  rw [if_neg hnlt]
  have hwin : windowAt 20 ((closeCol data).length - 1) (closeCol data) =
      (lastCloses 20 data).map num := by
    rw [windowAt, hidx, List.take_length, length_closeCol, closeCol_drop]
  rw [hwin, stdWin, allQ_map_num]
  have hl1 : ¬ (lastCloses 20 data).length ≤ 1 := by
    rw [length_lastCloses data h]; norm_num
  simp [hl1]

theorem bollinger_nan_short (data : BarSeries) (hne : data ≠ [])
    (h : data.length < 20) :
    ilocLast (rollingMean 20 (closeCol data)) = some GFloat.nan ∧
      ilocLast (rollingStdE 20 (closeCol data)) = some GFloat.nan := by
  have hcne : closeCol data ≠ [] := by
    simp only [closeCol]; simpa using hne
  have hn0 : (closeCol data).length ≠ 0 := by
    simpa using fun hh => hne (List.length_eq_zero.mp hh)
  constructor
  · rw [rollingMean, ilocLast_rollingApply _ _ hcne]
    have hlt : (closeCol data).length < 20 := by simpa using h
    rw [if_pos hlt]
  · rw [rollingStdE, ilocLast_map_range _ _ hn0]
    have hidx : (closeCol data).length - 1 + 1 = (closeCol data).length :=
      Nat.succ_pred_eq_of_ne_zero hn0
    rw [hidx]
    have hlt : (closeCol data).length < 20 := by simpa using h
    rw [if_pos hlt]

/-- C4 (amended): for every series with at least 20 bars
`calculate_bollinger_bands` returns
`mean ± 2·(sample standard deviation)` of the trailing 20 closes — pandas
`rolling(20).std()` uses the Bessel-corrected `ddof = 1` divisor, not the
population one the claim names — and for every non-empty series with
fewer than 20 bars both bounds are null (on the empty series the call
raises instead; see the counterexample). -/
theorem bollinger_bands_sample_std :
    (∀ data : BarSeries, 20 ≤ data.length →
        calculate_bollinger_bands data 20 2 =
          some (num ((meanQ (lastCloses 20 data) : ℝ) +
                Real.sqrt ((varQ (lastCloses 20 data) : ℚ) : ℝ) * 2),
              num ((meanQ (lastCloses 20 data) : ℝ) -
                Real.sqrt ((varQ (lastCloses 20 data) : ℚ) : ℝ) * 2)))
    ∧ (∀ data : BarSeries, data ≠ [] → data.length < 20 →
        calculate_bollinger_bands data 20 2 =
          some (GFloat.nan, GFloat.nan)) := by
  constructor
  · intro data h
    rw [calculate_bollinger_bands]
    rw [bollinger_mean_last data h, bollinger_std_last data h]
    simp [toE, GFloat.add, GFloat.mul, GFloat.sub, GFloat.neg, sub_eq_add_neg]
  · intro data hne h
    obtain ⟨hm, hs⟩ := bollinger_nan_short data hne h
    rw [calculate_bollinger_bands, hm, hs]
    simp [toE, GFloat.add, GFloat.mul, GFloat.sub]

/-- Twenty bars: ten closes at 0 followed by ten closes at 2.  Trailing
mean 1, sample variance `20/19`, population variance 1. -/
def bbBars : BarSeries :=
  [mkBar 0 1 0 0 1, mkBar 1 1 0 0 1, mkBar 2 1 0 0 1, mkBar 3 1 0 0 1,
   mkBar 4 1 0 0 1, mkBar 5 1 0 0 1, mkBar 6 1 0 0 1, mkBar 7 1 0 0 1,
   mkBar 8 1 0 0 1, mkBar 9 1 0 0 1, mkBar 10 3 2 2 1, mkBar 11 3 2 2 1,
   mkBar 12 3 2 2 1, mkBar 13 3 2 2 1, mkBar 14 3 2 2 1, mkBar 15 3 2 2 1,
   mkBar 16 3 2 2 1, mkBar 17 3 2 2 1, mkBar 18 3 2 2 1, mkBar 19 3 2 2 1]

/-- C4 counterexample: two defects.  On the empty series (fewer than 20
bars) the code raises instead of returning null bounds; and on `bbBars`
the code's bands use the sample standard deviation `sqrt(20/19)`, not the
claimed population standard deviation `sqrt(1) = 1`, so the returned pair
differs from the claimed `mean ± 2·popstd = (3, -1)`. -/
theorem bollinger_population_cex :
    calculate_bollinger_bands ([] : BarSeries) 20 2 = none ∧
      specPopVar (lastCloses 20 bbBars) = 1 ∧
      meanQ (lastCloses 20 bbBars) = 1 ∧
      calculate_bollinger_bands bbBars 20 2 ≠
        some (num ((meanQ (lastCloses 20 bbBars) : ℝ) +
            Real.sqrt ((specPopVar (lastCloses 20 bbBars) : ℚ) : ℝ) * 2),
          num ((meanQ (lastCloses 20 bbBars) : ℝ) -
            Real.sqrt ((specPopVar (lastCloses 20 bbBars) : ℚ) : ℝ) * 2)) := by
  have hpv : specPopVar (lastCloses 20 bbBars) = 1 := by
    with_unfolding_all rfl
  have hmq : meanQ (lastCloses 20 bbBars) = 1 := by
    with_unfolding_all rfl
  have hvq : varQ (lastCloses 20 bbBars) = 20 / 19 := by
    with_unfolding_all rfl
  have heval : calculate_bollinger_bands bbBars 20 2 =
      some (num ((1 : ℝ) + Real.sqrt (((20 / 19 : ℚ) : ℚ) : ℝ) * 2),
        num ((1 : ℝ) - Real.sqrt (((20 / 19 : ℚ) : ℚ) : ℝ) * 2)) := by
    rw [calculate_bollinger_bands, bollinger_mean_last bbBars (by decide),
      bollinger_std_last bbBars (by decide), hmq, hvq]
    simp [toE, GFloat.add, GFloat.mul, GFloat.sub, GFloat.neg, sub_eq_add_neg]
  refine ⟨rfl, hpv, hmq, ?_⟩
  rw [heval, hpv, hmq]
  intro hEq
  have h1 : (1 : ℝ) + Real.sqrt (((20 / 19 : ℚ) : ℚ) : ℝ) * 2 =
      ((1 : ℚ) : ℝ) + Real.sqrt (((1 : ℚ) : ℚ) : ℝ) * 2 := by
    have := (Option.some.injEq _ _).mp hEq
    exact congrArg Prod.fst this |> fun hfst => by
      have := (GFloat.num.injEq _ _).mp hfst
      exact this
  rw [Rat.cast_one, Real.sqrt_one] at h1
  have hsq : Real.sqrt (((20 / 19 : ℚ) : ℚ) : ℝ) = 1 := by linarith
  have h0 : (0 : ℝ) ≤ (((20 / 19 : ℚ) : ℚ) : ℝ) := by positivity
  have := Real.sq_sqrt h0
  rw [hsq] at this
  have hval : (((20 / 19 : ℚ) : ℚ) : ℝ) = 1 := by
    rw [← this]; norm_num
  rw [show (((20 / 19 : ℚ) : ℚ) : ℝ) = (20 : ℝ) / 19 by push_cast; ring]
    at hval
  norm_num at hval

/-- Witness for the amended C4: the band pair of `bbBars` (sample variance
`20/19`) and the null pair on a single bar. -/
theorem bollinger_bands_sample_std_witness :
    (calculate_bollinger_bands bbBars 20 2 =
        some (num ((meanQ (lastCloses 20 bbBars) : ℝ) +
              Real.sqrt ((varQ (lastCloses 20 bbBars) : ℚ) : ℝ) * 2),
            num ((meanQ (lastCloses 20 bbBars) : ℝ) -
              Real.sqrt ((varQ (lastCloses 20 bbBars) : ℚ) : ℝ) * 2)) ∧
      calculate_bollinger_bands oneBar 20 2 = some (GFloat.nan, GFloat.nan)) ∧
      varQ (lastCloses 20 bbBars) = 20 / 19 :=
  ⟨⟨bollinger_bands_sample_std.1 bbBars (by decide),
    bollinger_bands_sample_std.2 oneBar (by simp [oneBar]) (by decide)⟩,
    by with_unfolding_all rfl⟩

/-! ## C1: shape of the catalogue -/

theorem exists_ilocLast_of_len {α : Type} (xs : List α) (h : xs.length ≠ 0) :
    ∃ a, ilocLast xs = some a :=
  ilocLast_some_of_ne_nil (fun hh => h (by rw [hh]; rfl))

/-- The 23 indicator names of the default catalogue, in source order:
10 moving averages, 4 momentum, 2 + 1 volatility, 1 trend, 3 volume and
2 other indicators. -/
def catalogueNames : List String :=
  ["SMA", "SMA_20", "SMA_50", "SMA_100", "SMA_200",
   "EMA", "EMA_20", "EMA_50", "EMA_100", "EMA_200",
   "RSI", "MACD", "MACD_Signal", "Stochastic",
   "Bollinger_Upper", "Bollinger_Lower", "ATR",
   "ADX", "OBV", "CMF", "AD_Line", "ROC", "Williams_R"]

/-- C1: on every non-empty prepared bar series, the catalogue builder
returns exactly 23 records — the 10 moving averages, 4 momentum, 3
volatility, 1 trend, 3 volume and 2 other indicators of
`catalogueNames`, in order — with pairwise distinct indicator names, every
record dated with the date of the last bar of the series. -/
theorem catalogue_shape (data : BarSeries) (ticker : String)
    (hne : data ≠ []) :
    ∃ recs : List IndicatorRecord,
      calculate_technical_indicators data ticker = some recs ∧
        recs.length = 23 ∧
        recs.map IndicatorRecord.indicator_name = catalogueNames ∧
        (recs.map IndicatorRecord.indicator_name).Nodup ∧
        ∃ lb : Bar, data.getLast? = some lb ∧
          ∀ r ∈ recs, r.date = lb.date := by
  have hn0 : data.length ≠ 0 := fun h => hne (List.length_eq_zero.mp h)
  obtain ⟨d, hd⟩ : ∃ d, ilocLast (dateCol data) = some d :=
    exists_ilocLast_of_len _ (by simpa using hn0)
  obtain ⟨v1, h1⟩ : ∃ v, calculate_sma data 14 = some v := by
    rw [calculate_sma]; exact exists_ilocLast_of_len _ (by simpa using hn0)
  obtain ⟨v2, h2⟩ : ∃ v, calculate_sma data 20 = some v := by
    rw [calculate_sma]; exact exists_ilocLast_of_len _ (by simpa using hn0)
  obtain ⟨v3, h3⟩ : ∃ v, calculate_sma data 50 = some v := by
    rw [calculate_sma]; exact exists_ilocLast_of_len _ (by simpa using hn0)
  obtain ⟨v4, h4⟩ : ∃ v, calculate_sma data 100 = some v := by
    rw [calculate_sma]; exact exists_ilocLast_of_len _ (by simpa using hn0)
  obtain ⟨v5, h5⟩ : ∃ v, calculate_sma data 200 = some v := by
    rw [calculate_sma]; exact exists_ilocLast_of_len _ (by simpa using hn0)
  obtain ⟨v6, h6⟩ : ∃ v, calculate_ema data 14 = some v := by
    rw [calculate_ema]; exact exists_ilocLast_of_len _ (by simpa using hn0)
  obtain ⟨v7, h7⟩ : ∃ v, calculate_ema data 20 = some v := by
    rw [calculate_ema]; exact exists_ilocLast_of_len _ (by simpa using hn0)
  obtain ⟨v8, h8⟩ : ∃ v, calculate_ema data 50 = some v := by
    rw [calculate_ema]; exact exists_ilocLast_of_len _ (by simpa using hn0)
  obtain ⟨v9, h9⟩ : ∃ v, calculate_ema data 100 = some v := by
    rw [calculate_ema]; exact exists_ilocLast_of_len _ (by simpa using hn0)
  obtain ⟨v10, h10⟩ : ∃ v, calculate_ema data 200 = some v := by
    rw [calculate_ema]; exact exists_ilocLast_of_len _ (by simpa using hn0)
  obtain ⟨v11, h11⟩ : ∃ v, calculate_rsi data 14 = some v := by
    rw [calculate_rsi]
    refine exists_ilocLast_of_len _ ?_
    simp only [List.length_map, List.length_zipWith, rsiGainAvg, rsiLossAvg,
      length_rollingMean, List.length_map, rsiDelta, length_diffL,
      length_closeCol, min_self]
    exact hn0
  obtain ⟨vm, hm⟩ : ∃ v, calculate_macd data 12 26 9 = some v := by
    have hml : (List.zipWith sub (ewmAdj 12 (closeCol data))
        (ewmAdj 26 (closeCol data))).length = data.length := by
      simp
    obtain ⟨m1, hm1⟩ := exists_ilocLast_of_len (List.zipWith sub
      (ewmAdj 12 (closeCol data)) (ewmAdj 26 (closeCol data)))
      (by rw [hml]; exact hn0)
    obtain ⟨m2, hm2⟩ := exists_ilocLast_of_len (ewmAdj 9
      (List.zipWith sub (ewmAdj 12 (closeCol data))
        (ewmAdj 26 (closeCol data))))
      (by simp only [length_ewmAdj]; rw [hml]; exact hn0)
    exact ⟨(m1, m2), by rw [calculate_macd]; rw [hm1, hm2]; rfl⟩
  obtain ⟨v12, h12⟩ : ∃ v, calculate_stochastic data 14 = some v := by
    rw [calculate_stochastic]
    refine exists_ilocLast_of_len _ ?_
    simp only [List.length_map, List.length_zipWith, length_rollingMin,
      length_rollingMax, length_closeCol, length_highCol, length_lowCol,
      min_self]
    exact hn0
  obtain ⟨vb, hb⟩ : ∃ v, calculate_bollinger_bands data 20 2 = some v := by
    obtain ⟨b1, hb1⟩ := exists_ilocLast_of_len
      (rollingMean 20 (closeCol data)) (by simpa using hn0)
    obtain ⟨b2, hb2⟩ := exists_ilocLast_of_len
      (rollingStdE 20 (closeCol data)) (by simpa using hn0)
    exact ⟨_, by rw [calculate_bollinger_bands, hb1, hb2]; rfl⟩
  obtain ⟨v13, h13⟩ : ∃ v, calculate_atr data 14 = some v := by
    rw [calculate_atr]
    exact exists_ilocLast_of_len _ (by simpa using hn0)
  obtain ⟨v14, h14⟩ : ∃ v, calculate_adx data 14 = some v := by
    rw [calculate_adx]
    refine exists_ilocLast_of_len _ ?_
    simp only [List.length_zipWith, List.length_map, length_rollingMean,
      length_diffL, length_highCol, length_lowCol, length_trueRangeSeries,
      min_self]
    exact hn0
  obtain ⟨v15, h15⟩ : ∃ v, calculate_obv data = some v := by
    rw [calculate_obv]
    refine exists_ilocLast_of_len _ ?_
    simp only [length_cumsumF, List.length_zipWith, List.length_map,
      length_volCol, length_diffL, length_closeCol, min_self]
    exact hn0
  obtain ⟨v16, h16⟩ : ∃ v, calculate_cmf data 20 = some v := by
    rw [calculate_cmf]
    refine exists_ilocLast_of_len _ ?_
    simp only [List.length_zipWith, length_rollingSum, cmfTerms_eq,
      List.length_map, length_volCol, min_self]
    exact hn0
  obtain ⟨v17, h17⟩ : ∃ v, calculate_ad_line data = some v := by
    rw [calculate_ad_line]
    refine exists_ilocLast_of_len _ ?_
    simp only [length_cumsumF, List.length_zipWith, List.length_map,
      length_closeCol, length_lowCol, length_highCol, length_volCol,
      min_self]
    exact hn0
  obtain ⟨v18, h18⟩ : ∃ v, calculate_roc data 12 = some v := by
    rw [calculate_roc]
    refine exists_ilocLast_of_len _ ?_
    simp only [List.length_map, length_pctChange, length_closeCol]
    exact hn0
  obtain ⟨v19, h19⟩ : ∃ v, calculate_williams_r data 14 = some v := by
    rw [calculate_williams_r]
    refine exists_ilocLast_of_len _ ?_
    simp only [List.length_map, List.length_zipWith, length_rollingMax,
      length_rollingMin, length_highCol, length_lowCol, length_closeCol,
      min_self]
    exact hn0
  obtain ⟨lb, hlb⟩ : ∃ lb, ilocLast data = some lb :=
    ilocLast_some_of_ne_nil hne
  have hdlb : d = lb.date := by
    have h := ilocLast_map Bar.date data
    have hd2 : ilocLast (data.map Bar.date) = some d := hd
    rw [hd2, hlb] at h
    simpa using h
  have hcat : calculate_technical_indicators data ticker =
      some [⟨d, "SMA", toE v1⟩, ⟨d, "SMA_20", toE v2⟩,
        ⟨d, "SMA_50", toE v3⟩, ⟨d, "SMA_100", toE v4⟩,
        ⟨d, "SMA_200", toE v5⟩, ⟨d, "EMA", toE v6⟩, ⟨d, "EMA_20", toE v7⟩,
        ⟨d, "EMA_50", toE v8⟩, ⟨d, "EMA_100", toE v9⟩,
        ⟨d, "EMA_200", toE v10⟩, ⟨d, "RSI", toE v11⟩, ⟨d, "MACD", toE vm.1⟩,
        ⟨d, "MACD_Signal", toE vm.2⟩, ⟨d, "Stochastic", toE v12⟩,
        ⟨d, "Bollinger_Upper", vb.1⟩, ⟨d, "Bollinger_Lower", vb.2⟩,
        ⟨d, "ATR", toE v13⟩, ⟨d, "ADX", toE v14⟩, ⟨d, "OBV", toE v15⟩,
        ⟨d, "CMF", toE v16⟩, ⟨d, "AD_Line", toE v17⟩, ⟨d, "ROC", toE v18⟩,
        ⟨d, "Williams_R", toE v19⟩] := by
    simp [calculate_technical_indicators, hd, h1, h2, h3, h4, h5, h6,
      h7, h8, h9, h10, h11, hm, h12, hb, h13, h14, h15, h16, h17, h18, h19]
  refine ⟨_, hcat, rfl, rfl, ?_, lb, hlb, ?_⟩
  · show catalogueNames.Nodup
    decide
  intro r hr
  simp only [List.mem_cons, List.not_mem_nil, or_false] at hr
  rcases hr with rfl | rfl | rfl | rfl | rfl | rfl | rfl | rfl | rfl |
    rfl | rfl | rfl | rfl | rfl | rfl | rfl | rfl | rfl | rfl | rfl |
    rfl | rfl | rfl <;> exact hdlb

/-- Witness for C1 at a concrete one-bar series. -/
theorem catalogue_shape_witness :
    ∃ recs : List IndicatorRecord,
      calculate_technical_indicators oneBar "AAPL" = some recs ∧
        recs.length = 23 ∧
        recs.map IndicatorRecord.indicator_name = catalogueNames ∧
        (recs.map IndicatorRecord.indicator_name).Nodup ∧
        ∃ lb : Bar, oneBar.getLast? = some lb ∧
          ∀ r ∈ recs, r.date = lb.date :=
  catalogue_shape oneBar "AAPL" (by simp [oneBar])
